import Mathlib

/-!
Shallow embedding of the interproscan-reader core (boolean expression
language in src/parser/{lex.rs,ast.rs,expr.rs} and the streaming GFF
reader in src/reader.rs).  Each definition is translated from the Rust
source; machine integers (u64, usize, u16) are modelled as Nat, with the
explicit numeric bound written where the source behaviour depends on it.
Fallible Rust functions returning Result<_, Box<dyn Error>> are modelled
with Except RError.
-/

/-- The dynamic error value (Rust: Box<dyn Error>), modelled as a closed
enumeration of the runtime error types the core actually produces:
ParseError (with its message, represented by a kind), ParseIntError from
str::parse, and io::Error carrying the offending (trimmed) line text. -/
inductive ParseErrKind
  | ExpressionTooDeep
  | UnexpectedEndOfExpression
  | UnexpectedClosingBracket
  | ExpectedClosingBracket
  | InvalidTokenAfterClosingBracket
  | InvalidTokenAfterInvertedName
  | DoubleInvert
  | ExpectedExpression
  | ExpectedTokenToInvertGotEOF
  | NameFollowedByInvalidToken
  | UnexpectedBinaryOperator
  | UnexpectedTextFormat
  | ExpectedEOFFoundExtraTokens
deriving DecidableEq

inductive RError
  | parse : ParseErrKind → RError
  | parseInt : RError
  | io : String → RError
deriving DecidableEq

/-- Rust char::is_whitespace: Unicode White_Space property
(the 25 code points with that property). -/
def rustIsWhitespace (c : Char) : Bool :=
  let n := c.toNat
  (0x09 <= n && n <= 0x0D) || n == 0x20 || n == 0x85 || n == 0xA0 ||
  n == 0x1680 || (0x2000 <= n && n <= 0x200A) || n == 0x2028 ||
  n == 0x2029 || n == 0x202F || n == 0x205F || n == 0x3000

/-- Rust str::parse::<u64> / parse::<usize> (usize is 64-bit here): an
optional leading plus sign, then one or more ASCII digits, value below
2^64; anything else is a ParseIntError (modelled as none). -/
def parseRustNat (s : String) : Option Nat :=
  let cs := s.toList
  let cs := match cs with
    | '+' :: rest => rest
    | other => other
  if cs.isEmpty then none
  else if cs.all Char.isDigit then
    let n := cs.foldl (fun n c => n * 10 + (c.toNat - 48)) 0
    if n < 18446744073709551616 then some n else none
  else none

/-- Rust str::trim: strip rustIsWhitespace characters from both ends. -/
def rustTrim (s : String) : String :=
  String.mk (((s.toList.dropWhile rustIsWhitespace).reverse.dropWhile
    rustIsWhitespace).reverse)

/-- Rust String::starts_with(char): the first character equals c. -/
def strStartsWithChar (s : String) (c : Char) : Bool :=
  match s.toList with
  | [] => false
  | c2 :: _ => c2 == c

/-- Rust str::starts_with(&str): prefix test. -/
def rustStartsWith (s pre : String) : Bool :=
  pre.toList.isPrefixOf s.toList

/-- Rust str::split with a single-character separator, on char lists:
empty input gives one empty part, and every separator occurrence starts a
new part. -/
def splitOnCharList (sep : Char) : List Char → List (List Char)
  | [] => [[]]
  | c :: rest =>
    if c = sep then [] :: splitOnCharList sep rest
    else
      match splitOnCharList sep rest with
      | [] => [[c]]
      | grp :: grps => (c :: grp) :: grps

/-- Rust str::split for the single-character separators the source uses
(the tab, dollar, semicolon and equals patterns). -/
def rustSplit (s : String) (sep : Char) : List String :=
  (splitOnCharList sep s.toList).map String.mk

/-! ## src/parser/lex.rs -/

inductive Token
  | OpenBracket
  | CloseBracket
  | Invert
  | And
  | Or
  | Name : String → Token
deriving DecidableEq

def Token.op_from_char (c : Char) : Option Token :=
  if c = '(' then some Token.OpenBracket
  else if c = ')' then some Token.CloseBracket
  else if c = '|' ∨ c = ',' then some Token.Or
  else if c = '&' then some Token.And
  else if c = '!' then some Token.Invert
  else none

inductive ParseState
  | Ready
  | InName
deriving DecidableEq

structure LexState where
  state : ParseState
  tokens : List Token
  cur_name : String
deriving DecidableEq

/-- One iteration of the character loop in lex (src/parser/lex.rs). -/
def lexStep (st : LexState) (c : Char) : LexState :=
  match Token.op_from_char c, st.state with
  | some op, ParseState.InName =>
    ⟨ParseState.Ready, st.tokens ++ [Token.Name st.cur_name, op], ""⟩
  | none, ParseState.InName =>
    if rustIsWhitespace c then
      ⟨ParseState.Ready, st.tokens ++ [Token.Name st.cur_name], ""⟩
    else ⟨ParseState.InName, st.tokens, st.cur_name.push c⟩
  | some op, ParseState.Ready =>
    ⟨ParseState.Ready, st.tokens ++ [op], st.cur_name⟩
  | none, ParseState.Ready =>
    if rustIsWhitespace c then st
    else ⟨ParseState.InName, st.tokens, st.cur_name.push c⟩

/-- lex (src/parser/lex.rs).  The Rust signature returns Result but the
body never produces an error, so the embedding returns the token list. -/
def lex (s : String) : List Token :=
  let fin := s.toList.foldl lexStep ⟨ParseState.Ready, [], ""⟩
  if fin.cur_name.isEmpty then fin.tokens
  else fin.tokens ++ [Token.Name fin.cur_name]

/-! ## src/parser/ast.rs -/

inductive Node
  | Invert : Node → Node
  | And : Node → Node → Node
  | Or : Node → Node → Node
  | Name : String → Node
deriving DecidableEq

/-- Node::munch_tokens (src/parser/ast.rs).  The mutable VecDeque is
modelled by returning the remaining tokens next to the parsed node; the
u16 depth is a Nat (it only ever decreases from 20).  The in-place
splicing of synthetic brackets becomes list construction.  Note the
faithful translation of the close-bracket check: when the token queue is
already empty, `if let Some(tk) = tokens.pop_front()` skips the check
entirely, so a missing closing bracket at end of input is accepted. -/
def Node.munch_tokens : List Token → Nat → Except RError (Node × List Token)
  | _, 0 => .error (.parse .ExpressionTooDeep)
  | tokens, depth + 1 =>
    match tokens with
    | [] => .error (.parse .UnexpectedEndOfExpression)
    | Token.CloseBracket :: _ => .error (.parse .UnexpectedClosingBracket)
    | Token.OpenBracket :: rest =>
      match Node.munch_tokens rest depth with
      | .error e => .error e
      | .ok (result, rem) =>
        match rem with
        | [] => .ok (result, [])
        | tk :: rem2 =>
          if tk ≠ Token.CloseBracket then
            .error (.parse .ExpectedClosingBracket)
          else
            match rem2 with
            | Token.And :: rem3 =>
              match Node.munch_tokens rem3 depth with
              | .error e => .error e
              | .ok (rhs, rem4) => .ok (Node.And result rhs, rem4)
            | Token.Or :: rem3 =>
              match Node.munch_tokens rem3 depth with
              | .error e => .error e
              | .ok (rhs, rem4) => .ok (Node.Or result rhs, rem4)
            | [] => .ok (result, [])
            | Token.CloseBracket :: _ => .ok (result, rem2)
            | _ :: _ => .error (.parse .InvalidTokenAfterClosingBracket)
    | Token.Invert :: rest =>
      match rest with
      | Token.OpenBracket :: _ =>
        match Node.munch_tokens rest depth with
        | .error e => .error e
        | .ok (inner, rem) => .ok (Node.Invert inner, rem)
      | Token.Name text :: rest2 =>
        match rest2 with
        | Token.And :: _ =>
          Node.munch_tokens
            ([Token.OpenBracket, Token.Invert, Token.OpenBracket,
              Token.Name text, Token.CloseBracket, Token.CloseBracket] ++
              rest2) depth
        | Token.Or :: _ =>
          Node.munch_tokens
            ([Token.OpenBracket, Token.Invert, Token.OpenBracket,
              Token.Name text, Token.CloseBracket, Token.CloseBracket] ++
              rest2) depth
        | [] => .ok (Node.Invert (Node.Name text), rest2)
        | Token.CloseBracket :: _ => .ok (Node.Invert (Node.Name text), rest2)
        | _ :: _ => .error (.parse .InvalidTokenAfterInvertedName)
      | Token.Invert :: _ => .error (.parse .DoubleInvert)
      | _ :: _ => .error (.parse .ExpectedExpression)
      | [] => .error (.parse .ExpectedTokenToInvertGotEOF)
    | Token.Name text :: rest =>
      match rest with
      | Token.And :: _ =>
        Node.munch_tokens
          (Token.OpenBracket :: Token.Name text :: Token.CloseBracket :: rest)
          depth
      | Token.Or :: _ =>
        Node.munch_tokens
          (Token.OpenBracket :: Token.Name text :: Token.CloseBracket :: rest)
          depth
      | Token.CloseBracket :: _ => .ok (Node.Name text, rest)
      | [] => .ok (Node.Name text, rest)
      | _ :: _ => .error (.parse .NameFollowedByInvalidToken)
    | Token.And :: _ => .error (.parse .UnexpectedBinaryOperator)
    | Token.Or :: _ => .error (.parse .UnexpectedBinaryOperator)

/-- Node::matches (src/parser/ast.rs).  The && / || of Rust short-circuit,
so the right operand is only evaluated (and can only raise an error) when
the left operand did not already decide the result. -/
def Node.matches : Node → List String → Except RError Bool
  | Node.Invert inverted, tags =>
    match inverted.matches tags with
    | .error e => .error e
    | .ok b => .ok (!b)
  | Node.Name text, tags =>
    let splitted := rustSplit text '$'
    match splitted with
    | [_] => .ok (tags.contains text)
    | [a, b] =>
      match parseRustNat b with
      | none => .error .parseInt
      | some count => .ok (count == (tags.filter (fun x => x == a)).length)
    | _ => .error (.parse .UnexpectedTextFormat)
  | Node.And lhs rhs, tags =>
    match lhs.matches tags with
    | .error e => .error e
    | .ok false => .ok false
    | .ok true => rhs.matches tags
  | Node.Or lhs rhs, tags =>
    match lhs.matches tags with
    | .error e => .error e
    | .ok true => .ok true
    | .ok false => rhs.matches tags

/-! ## src/parser/expr.rs -/

inductive ExprData
  | Empty
  | HasNodes : Node → ExprData
deriving DecidableEq

structure Expr where
  data : ExprData
deriving DecidableEq

def MAX_RECURSION : Nat := 20

/-- Expr::from_string (src/parser/expr.rs). -/
def Expr.from_string (s : String) : Except RError Expr :=
  let tokens := lex s
  if tokens.isEmpty then .ok ⟨ExprData.Empty⟩
  else
    match Node.munch_tokens tokens MAX_RECURSION with
    | .error e => .error e
    | .ok (ast, rem) =>
      if !rem.isEmpty then .error (.parse .ExpectedEOFFoundExtraTokens)
      else .ok ⟨ExprData.HasNodes ast⟩

def Expr.matches (e : Expr) (tags : List String) : Except RError Bool :=
  match e.data with
  | ExprData.Empty => .ok true
  | ExprData.HasNodes node => node.matches tags

/-! ## src/reader.rs -/

/-- DomainRecord (src/reader.rs); u64 fields are Nat. -/
structure DomainRecord where
  source : String
  start : Nat
  «end» : Nat
  domain_name : String
  domain_desc : String
deriving DecidableEq

def DomainRecord.is_gene (d : DomainRecord) : Bool :=
  d.source == "."

/-- GeneRecord (src/reader.rs). -/
structure GeneRecord where
  id : String
  length : Nat
  domains : List DomainRecord
deriving DecidableEq

/-- GeneRecord::new.  Rust computes end - start + 1 on u64, which is
undefined (panic/wrap) when end < start; the source does not guard this
and the embedding uses truncated Nat subtraction there. -/
def GeneRecord.new (id : String) (start stop : Nat) : GeneRecord :=
  { id := id, length := stop - start + 1, domains := [] }

def GeneRecord.push_domain (g : GeneRecord) (domain : DomainRecord) : GeneRecord :=
  { g with domains := g.domains ++ [domain] }

/-- Expr::matches_domains (src/parser/expr.rs): evaluate over the
domain_name of every accumulated child. -/
def Expr.matches_domains (e : Expr) (gene_record : GeneRecord) :
    Except RError Bool :=
  e.matches (gene_record.domains.map (fun domain => domain.domain_name))

/-- GeneRecord::filter_by_source_expr (src/reader.rs): keep a domain iff
the source expression evaluates to Ok(true) on its source tag.  The Rust
code unwraps the evaluation with .expect("must ok"), aborting the whole
process if the expression errors on a single source tag; that abort path
is not given a value here (the erroring case keeps no domain). -/
def GeneRecord.filter_by_source_expr (g : GeneRecord) (source_expr : Option Expr) :
    GeneRecord :=
  match source_expr with
  | some expr =>
    { g with domains := g.domains.filter (fun domain =>
        match expr.matches [domain.source] with
        | .ok b => b
        | .error _ => false) }
  | none => g

/-- parse_line (src/reader.rs). -/
def parse_line (line : String) : Except RError (String × DomainRecord) :=
  let line := rustTrim line
  let records := rustSplit line '\t'
  if records.length ≠ 9 then .error (.io line)
  else
    let id := records.getD 0 ""
    let source := records.getD 1 ""
    match parseRustNat (records.getD 3 "") with
    | none => .error .parseInt
    | some start =>
      match parseRustNat (records.getD 4 "") with
      | none => .error .parseInt
      | some stop =>
        let nd := (rustSplit (records.getD 8 "") ';').foldl
          (fun (nd : String × String) attr =>
            let attr_records := rustSplit attr '='
            if attr_records.length ≠ 2 then nd
            else if attr_records.getD 0 "" == "Name" then
              (attr_records.getD 1 "", nd.2)
            else if attr_records.getD 0 "" == "signature_desc" then
              (nd.1, attr_records.getD 1 "")
            else nd)
          ("No Name", "No Description")
        .ok (id, { source := source, start := start, «end» := stop,
                   domain_name := nd.1, domain_desc := nd.2 })

/-- The keyed accumulator records_map.  Rust uses a HashMap whose
iteration order is unspecified; the embedding fixes first-insertion
order, which the claims never distinguish.  Keys are unique by
construction (orInsert only appends absent keys). -/
abbrev RecordsMap := List (String × GeneRecord)

/-- HashMap::entry(id).or_insert(g): insert only when the key is absent. -/
def orInsert (m : RecordsMap) (id : String) (g : GeneRecord) : RecordsMap :=
  if m.any (fun p => p.1 == id) then m else m ++ [(id, g)]

/-- HashMap::get_mut(id) followed by push_domain: update the (unique)
entry with that key, and do nothing when the key is absent. -/
def pushDomainAt : RecordsMap → String → DomainRecord → RecordsMap
  | [], _, _ => []
  | p :: rest, id, domain =>
    if p.1 == id then (p.1, p.2.push_domain domain) :: rest
    else p :: pushDomainAt rest id domain

/-- Observation helper for theorems: HashMap::get on the accumulator. -/
def lookupRec : RecordsMap → String → Option GeneRecord
  | [], _ => none
  | p :: rest, id => if p.1 == id then some p.2 else lookupRec rest id

/-- The `if let Some(max_length) ... continue` guard in finish. -/
def exceedsMax (len : Nat) : Option Nat → Bool
  | some mx => len > mx
  | none => false

/-- The `if let Some(min_length) ... continue` guard in finish. -/
def belowMin (len : Nat) : Option Nat → Bool
  | some mn => len < mn
  | none => false

/-- InterproGffReader (src/reader.rs); the BufRead source is the list of
its lines (I/O errors of the transport are outside the embedding). -/
structure InterproGffReader where
  input : List String
  comment : Char
  finish_line : String
  id_expr : Option Expr
  domain_expr : Option Expr
  source_expr : Option Expr
  max_length : Option Nat
  min_length : Option Nat
deriving DecidableEq

/-- InterproGffReader::new. -/
def InterproGffReader.new (input : List String) : InterproGffReader :=
  { input := input, comment := '#', finish_line := "## FASTA ##",
    id_expr := none, domain_expr := none, source_expr := none,
    max_length := none, min_length := none }

/-- The record-building part of one loop iteration of finish: classify
the parsed line as parent (source ".") or child and update the
accumulator.  `continue` becomes returning the accumulator unchanged. -/
def InterproGffReader.applyRecord (r : InterproGffReader) (acc : RecordsMap)
    (id : String) (domain : DomainRecord) : RecordsMap :=
  if domain.is_gene then
    let gene_record := GeneRecord.new id domain.start domain.«end»
    if exceedsMax gene_record.length r.max_length then acc
    else if belowMin gene_record.length r.min_length then acc
    else orInsert acc id gene_record
  else
    pushDomainAt acc id domain

/-- One loop iteration of finish after the skip guards: parse the line,
apply the id filter (whose evaluation errors propagate), then update the
accumulator. -/
def InterproGffReader.stepLine (r : InterproGffReader) (acc : RecordsMap)
    (line : String) : Except RError RecordsMap :=
  match parse_line line with
  | .error e => .error e
  | .ok (id, domain) =>
    match r.id_expr with
    | none => .ok (r.applyRecord acc id domain)
    | some expr =>
      match expr.matches [id] with
      | .error e => .error e
      | .ok true => .ok (r.applyRecord acc id domain)
      | .ok false => .ok acc

/-- The line loop of InterproGffReader::finish: stop at the sentinel,
skip comment lines and lines of byte length exactly 1, otherwise run
stepLine; any error aborts the whole loop. -/
def InterproGffReader.runLines (r : InterproGffReader) :
    List String → RecordsMap → Except RError RecordsMap
  | [], acc => .ok acc
  | line :: rest, acc =>
    if rustStartsWith line r.finish_line then .ok acc
    else if strStartsWithChar line r.comment then r.runLines rest acc
    else if line.utf8ByteSize == 1 then r.runLines rest acc
    else
      match r.stepLine acc line with
      | .error e => .error e
      | .ok acc2 => r.runLines rest acc2

/-- The post-pass keep/drop closure in finish: a configured domain
expression keeps a record iff evaluation returns Ok(true); an evaluation
error is treated as not matching (the record is dropped, the error is
not propagated). -/
def keepByDomainExpr (domain_expr : Option Expr) (g : GeneRecord) : Bool :=
  match domain_expr with
  | some expr =>
    match expr.matches_domains g with
    | .ok is_ok => is_ok
    | .error _ => false
  | none => true

/-- InterproGffReader::finish (src/reader.rs): run the line loop, then
filter the accumulated values by the domain expression and prune each
survivor by the source expression. -/
def InterproGffReader.finish (r : InterproGffReader) :
    Except RError (List GeneRecord) :=
  match r.runLines r.input [] with
  | .error e => .error e
  | .ok records_map =>
    .ok (((records_map.map Prod.snd).filter
      (keepByDomainExpr r.domain_expr)).map
      (fun d => d.filter_by_source_expr r.source_expr))

deriving instance DecidableEq for Except

/-! ## Concrete fixtures used in the theorems -/

/-- A bracket nest: n opening brackets, the name a, n closing brackets. -/
def nestedBrackets (n : Nat) : String :=
  String.mk (List.replicate n '(' ++ ['a'] ++ List.replicate n ')')

/-- A parent-marker line for gene1 spanning 10 to 20 (length 11). -/
def parentLine : String := "gene1\t.\t.\t10\t20\t.\t.\t.\t."

/-- A child line for gene1: source PfamSrc, Name Pfam, desc Y. -/
def childLine : String :=
  "gene1\tPfamSrc\t.\t12\t15\t.\t.\t.\tName=Pfam;signature_desc=Y"

/-- A second (duplicate) parent-marker line for gene1 with another span. -/
def dupParentLine : String := "gene1\t.\t.\t5\t6\t.\t.\t.\t."

/-- g2 extends g: same identifier and length, and the children of g2 are
the children of g possibly followed by later appends. -/
def ExtendsRec (g g2 : GeneRecord) : Prop :=
  g2.id = g.id ∧ g2.length = g.length ∧ ∃ ds, g2.domains = g.domains ++ ds

/-! ## Helper lemmas about the accumulator -/

lemma extendsRec_refl (g : GeneRecord) : ExtendsRec g g :=
  ⟨rfl, rfl, [], by simp⟩

lemma extendsRec_trans {g g2 g3 : GeneRecord} (h1 : ExtendsRec g g2)
    (h2 : ExtendsRec g2 g3) : ExtendsRec g g3 := by
  obtain ⟨hi1, hl1, ds1, hd1⟩ := h1
  obtain ⟨hi2, hl2, ds2, hd2⟩ := h2
  exact ⟨hi2.trans hi1, hl2.trans hl1, ds1 ++ ds2, by rw [hd2, hd1, List.append_assoc]⟩

lemma extendsRec_push (g : GeneRecord) (d : DomainRecord) :
    ExtendsRec g (g.push_domain d) :=
  ⟨rfl, rfl, [d], rfl⟩

lemma lookupRec_append_left {m : RecordsMap} {id : String} {g : GeneRecord}
    (l : RecordsMap) (h : lookupRec m id = some g) :
    lookupRec (m ++ l) id = some g := by
  induction m with
  | nil => simp [lookupRec] at h
  | cons p rest ih =>
    simp only [lookupRec, List.cons_append] at h ⊢
    by_cases hp : (p.1 == id) = true
    · simpa [hp] using h
    · rw [if_neg hp] at h ⊢
      exact ih h

lemma lookupRec_none_iff_not_any (m : RecordsMap) (id : String) :
    lookupRec m id = none ↔ m.any (fun p => p.1 == id) = false := by
  induction m with
  | nil => simp [lookupRec]
  | cons p rest ih =>
    simp only [lookupRec, List.any_cons, Bool.or_eq_false_iff]
    by_cases hp : (p.1 == id) = true
    · simp [hp]
    · simp only [Bool.not_eq_true] at hp
      simp [hp, ih]

lemma lookupRec_orInsert_present {m : RecordsMap} {id : String} {g : GeneRecord}
    (i2 : String) (g2 : GeneRecord) (h : lookupRec m id = some g) :
    lookupRec (orInsert m i2 g2) id = some g := by
  unfold orInsert
  split
  · exact h
  · exact lookupRec_append_left _ h

lemma lookupRec_append_single {m : RecordsMap} {id : String}
    (g : GeneRecord) (h : lookupRec m id = none) :
    lookupRec (m ++ [(id, g)]) id = some g := by
  induction m with
  | nil => simp [lookupRec]
  | cons p rest ih =>
    simp only [lookupRec, List.cons_append] at h ⊢
    by_cases hp : (p.1 == id) = true
    · rw [if_pos hp] at h; cases h
    · rw [if_neg hp] at h ⊢
      exact ih h

lemma lookupRec_orInsert_absent {m : RecordsMap} {id : String}
    (g : GeneRecord) (h : lookupRec m id = none) :
    lookupRec (orInsert m id g) id = some g := by
  unfold orInsert
  rw [if_neg]
  · exact lookupRec_append_single g h
  · simp only [Bool.not_eq_true]
    exact (lookupRec_none_iff_not_any m id).mp h

lemma lookupRec_pushDomainAt {m : RecordsMap} {id : String} {g : GeneRecord}
    (i2 : String) (d : DomainRecord) (h : lookupRec m id = some g) :
    ∃ g2, lookupRec (pushDomainAt m i2 d) id = some g2 ∧
      (g2 = g ∨ g2 = g.push_domain d) := by
  induction m with
  | nil => simp [lookupRec] at h
  | cons p rest ih =>
    simp only [lookupRec] at h
    by_cases h2 : (p.1 == i2) = true
    · by_cases h1 : (p.1 == id) = true
      · rw [if_pos h1] at h
        have hg : p.2 = g := by injection h
        subst hg
        exact ⟨p.2.push_domain d, by simp [pushDomainAt, h2, lookupRec, h1],
          Or.inr rfl⟩
      · rw [if_neg h1] at h
        exact ⟨g, by simp [pushDomainAt, h2, lookupRec, h1, h], Or.inl rfl⟩
    · by_cases h1 : (p.1 == id) = true
      · rw [if_pos h1] at h
        have hg : p.2 = g := by injection h
        subst hg
        exact ⟨p.2, by simp [pushDomainAt, h2, lookupRec, h1], Or.inl rfl⟩
      · rw [if_neg h1] at h
        obtain ⟨g2, hg2, hcase⟩ := ih h
        exact ⟨g2, by simp [pushDomainAt, h2, lookupRec, h1, hg2], hcase⟩

lemma pushDomainAt_absent {m : RecordsMap} {id : String} (d : DomainRecord)
    (h : lookupRec m id = none) : pushDomainAt m id d = m := by
  induction m with
  | nil => rfl
  | cons p rest ih =>
    simp only [lookupRec] at h
    by_cases hp : (p.1 == id) = true
    · rw [if_pos hp] at h; cases h
    · rw [if_neg hp] at h
      simp [pushDomainAt, hp, ih h]

lemma applyRecord_extendsRec (r : InterproGffReader) (acc : RecordsMap)
    (i2 : String) (domain : DomainRecord) {id : String} {g : GeneRecord}
    (h : lookupRec acc id = some g) :
    ∃ g2, lookupRec (r.applyRecord acc i2 domain) id = some g2 ∧
      ExtendsRec g g2 := by
  unfold InterproGffReader.applyRecord
  split
  · dsimp only
    split
    · exact ⟨g, h, extendsRec_refl g⟩
    · split
      · exact ⟨g, h, extendsRec_refl g⟩
      · exact ⟨g, lookupRec_orInsert_present _ _ h, extendsRec_refl g⟩
  · obtain ⟨g2, hg2, hcase⟩ := lookupRec_pushDomainAt i2 domain h
    refine ⟨g2, hg2, ?_⟩
    rcases hcase with rfl | rfl
    · exact extendsRec_refl _
    · exact extendsRec_push _ domain

lemma stepLine_extendsRec (r : InterproGffReader) (acc acc2 : RecordsMap)
    (line : String) (hstep : r.stepLine acc line = .ok acc2)
    {id : String} {g : GeneRecord} (h : lookupRec acc id = some g) :
    ∃ g2, lookupRec acc2 id = some g2 ∧ ExtendsRec g g2 := by
  unfold InterproGffReader.stepLine at hstep
  split at hstep
  · cases hstep
  · split at hstep
    · cases hstep
      exact applyRecord_extendsRec r acc _ _ h
    · split at hstep
      · cases hstep
      · cases hstep
        exact applyRecord_extendsRec r acc _ _ h
      · cases hstep
        exact ⟨g, h, extendsRec_refl g⟩

lemma runLines_extendsRec (r : InterproGffReader) :
    ∀ (lines : List String) (acc m : RecordsMap),
    r.runLines lines acc = .ok m →
    ∀ {id : String} {g : GeneRecord}, lookupRec acc id = some g →
    ∃ g2, lookupRec m id = some g2 ∧ ExtendsRec g g2 := by
  intro lines
  induction lines with
  | nil =>
    intro acc m h id g hl
    cases h
    exact ⟨g, hl, extendsRec_refl g⟩
  | cons line rest ih =>
    intro acc m h id g hl
    unfold InterproGffReader.runLines at h
    split at h
    · cases h
      exact ⟨g, hl, extendsRec_refl g⟩
    · split at h
      · exact ih acc m h hl
      · split at h
        · exact ih acc m h hl
        · split at h
          · cases h
          · rename_i acc2 heq
            obtain ⟨g2, hg2, hext⟩ := stepLine_extendsRec r acc acc2 line heq hl
            obtain ⟨g3, hg3, hext2⟩ := ih acc2 m h hg2
            exact ⟨g3, hg3, extendsRec_trans hext hext2⟩

/-! ## Lemmas for the empty / whitespace-only expression -/

lemma op_from_char_of_whitespace {c : Char} (h : rustIsWhitespace c = true) :
    Token.op_from_char c = none := by
  unfold Token.op_from_char
  split_ifs with h1 h2 h3 h4 h5
  · subst h1; exact absurd h (by decide)
  · subst h2; exact absurd h (by decide)
  · rcases h3 with h3 | h3 <;> (subst h3; exact absurd h (by decide))
  · subst h4; exact absurd h (by decide)
  · subst h5; exact absurd h (by decide)
  · rfl

lemma lexStep_whitespace_ready (ts : List Token) {c : Char}
    (h : rustIsWhitespace c = true) :
    lexStep ⟨ParseState.Ready, ts, ""⟩ c = ⟨ParseState.Ready, ts, ""⟩ := by
  unfold lexStep
  rw [op_from_char_of_whitespace h]
  simp [h]

lemma lex_of_all_whitespace {cs : List Char} (ts : List Token)
    (h : cs.all rustIsWhitespace = true) :
    cs.foldl lexStep ⟨ParseState.Ready, ts, ""⟩ = ⟨ParseState.Ready, ts, ""⟩ := by
  induction cs with
  | nil => rfl
  | cons c rest ih =>
    simp only [List.all_cons, Bool.and_eq_true] at h
    rw [List.foldl_cons, lexStep_whitespace_ready ts h.1]
    exact ih h.2

/-! ## Claim theorems -/

/-- C2 (code bug): the expression string "(a" opens a bracketed group and
reaches end of input without the matching closing bracket, yet
Expr::from_string parses it successfully as the bare name a instead of
failing: when the token queue is empty, munch_tokens skips the
closing-bracket check (if let Some pattern), so the claimed parse error
is never raised. -/
theorem C2_unmatched_bracket_accepted :
    Expr.from_string "(a" = .ok ⟨ExprData.HasNodes (Node.Name "a")⟩ := by
  rfl

/-- C3 (confirmed): "!a & b" parses to exactly
And(Negate(Name a), Name b) -- unparenthesized negation binds to the
single adjacent name -- and that expression matches the tag set containing
only b, and fails on the sets containing a and b, only a, and nothing. -/
theorem C3_negation_binds_adjacent_name :
    Expr.from_string "!a & b" =
      .ok ⟨ExprData.HasNodes
        (Node.And (Node.Invert (Node.Name "a")) (Node.Name "b"))⟩ ∧
    (Expr.mk (ExprData.HasNodes
      (Node.And (Node.Invert (Node.Name "a")) (Node.Name "b")))).matches
      ["b"] = .ok true ∧
    (Expr.mk (ExprData.HasNodes
      (Node.And (Node.Invert (Node.Name "a")) (Node.Name "b")))).matches
      ["a", "b"] = .ok false ∧
    (Expr.mk (ExprData.HasNodes
      (Node.And (Node.Invert (Node.Name "a")) (Node.Name "b")))).matches
      ["a"] = .ok false ∧
    (Expr.mk (ExprData.HasNodes
      (Node.And (Node.Invert (Node.Name "a")) (Node.Name "b")))).matches
      [] = .ok false :=
  ⟨rfl, rfl, rfl, rfl, rfl⟩

/-- C4 (confirmed): the parser recursion budget starts at 20, a call with
budget 0 fails with the expression-too-deep parse error whatever the
token stream is, an expression that nests 21 brackets deep fails with the
depth error, and one that nests 19 brackets deep parses successfully. -/
theorem C4_recursion_budget :
    MAX_RECURSION = 20 ∧
    (∀ ts : List Token,
      Node.munch_tokens ts 0 = .error (.parse .ExpressionTooDeep)) ∧
    Expr.from_string (nestedBrackets 21) =
      .error (.parse .ExpressionTooDeep) ∧
    Expr.from_string (nestedBrackets 19) =
      .ok ⟨ExprData.HasNodes (Node.Name "a")⟩ :=
  ⟨rfl, fun ts => by cases ts <;> rfl, by rfl, by rfl⟩

/-- C9 (confirmed): the empty string, and any whitespace-only string,
lexes to no tokens and Expr::from_string turns it into the Empty
expression, whose matches returns true on every tag list: the empty
expression is the identity element for filtering. -/
theorem C9_empty_expression_identity :
    Expr.from_string "" = .ok ⟨ExprData.Empty⟩ ∧
    (∀ s : String, s.toList.all rustIsWhitespace = true →
      Expr.from_string s = .ok ⟨ExprData.Empty⟩) ∧
    (∀ tags : List String, (Expr.mk ExprData.Empty).matches tags = .ok true) := by
  refine ⟨rfl, ?_, fun tags => rfl⟩
  intro s hs
  unfold Expr.from_string lex
  rw [lex_of_all_whitespace [] hs]
  rfl

/-- Witness for C9: the whitespace-only string made of one space, one tab
and one space is accepted as the empty expression. -/
theorem C9_empty_expression_identity_witness :
    Expr.from_string " \t " = .ok ⟨ExprData.Empty⟩ :=
  C9_empty_expression_identity.2.1 " \t " (by decide)

/-- C10 (confirmed): an empty input line (byte length 0) is not treated
as blank -- the blank-line guard skips only lines of byte length exactly
1 -- so an empty line reaches parse_line, fails the nine-field check, and
InterproGffReader::finish returns the fatal line-format error for the
whole read. -/
theorem C10_empty_line_not_blank :
    parse_line "" = .error (.io "") ∧
    (∀ (r : InterproGffReader) (line : String) (rest : List String)
      (acc : RecordsMap),
      rustStartsWith line r.finish_line = false →
      strStartsWithChar line r.comment = false →
      line.utf8ByteSize = 1 →
      r.runLines (line :: rest) acc = r.runLines rest acc) ∧
    (∀ rest : List String,
      (InterproGffReader.new ("" :: rest)).finish = .error (.io "")) ∧
    (InterproGffReader.new ["x"]).finish = .ok [] := by
  refine ⟨rfl, ?_, fun rest => rfl, rfl⟩
  intro r line rest acc h1 h2 h3
  conv_lhs => unfold InterproGffReader.runLines
  rw [h1, h2, h3]
  simp

/-- Witness for C10: the line of byte length 1 "x" is skipped by the
blank-line guard under the default reader configuration. -/
theorem C10_empty_line_not_blank_witness :
    (InterproGffReader.new ["x"]).runLines ["x"] [] =
      (InterproGffReader.new ["x"]).runLines [] [] :=
  C10_empty_line_not_blank.2.1 (InterproGffReader.new ["x"]) "x" [] []
    (by decide) (by decide) (by decide)

/-- C8 (confirmed): a Name leaf whose text splits on the dollar sign into
text and N evaluates to true exactly when the tag list has exactly N
occurrences of text (N parsed as a non-negative integer); when the part
after the dollar does not parse, evaluation returns the integer-parse
error; and a name with two or more dollar separators returns the
unexpected-text-format evaluation error.  The concrete instances for
name$2 against two, one and three occurrences are included. -/
theorem C8_count_predicate :
    (∀ (text a b : String) (n : Nat) (tags : List String),
      rustSplit text '$' = [a, b] → parseRustNat b = some n →
      Node.matches (Node.Name text) tags =
        .ok (n == (tags.filter (fun x => x == a)).length)) ∧
    (∀ (text a b : String) (tags : List String),
      rustSplit text '$' = [a, b] → parseRustNat b = none →
      Node.matches (Node.Name text) tags = .error .parseInt) ∧
    (∀ (text p1 p2 p3 : String) (ps : List String) (tags : List String),
      rustSplit text '$' = p1 :: p2 :: p3 :: ps →
      Node.matches (Node.Name text) tags =
        .error (.parse .UnexpectedTextFormat)) ∧
    (Node.Name "name$2").matches ["name", "name"] = .ok true ∧
    (Node.Name "name$2").matches ["name"] = .ok false ∧
    (Node.Name "name$2").matches ["name", "name", "name"] = .ok false ∧
    (Node.Name "Pfam$x").matches ["Pfam"] = .error .parseInt := by
  refine ⟨?_, ?_, ?_, rfl, rfl, rfl, rfl⟩
  · intro text a b n tags hsplit hparse
    unfold Node.matches
    rw [hsplit]
    dsimp only
    rw [hparse]
  · intro text a b tags hsplit hparse
    unfold Node.matches
    rw [hsplit]
    dsimp only
    rw [hparse]
  · intro text p1 p2 p3 ps tags hsplit
    unfold Node.matches
    rw [hsplit]

/-- Witness for C8: name$2 against a tag list with exactly two
occurrences of name evaluates to true. -/
theorem C8_count_predicate_witness :
    (Node.Name "name$2").matches ["name", "name", "other"] = .ok true := by
  have h := C8_count_predicate.1 "name$2" "name" "2" 2
    ["name", "name", "other"] (by decide) (by decide)
  exact h.trans (by decide)

/-- C5 (confirmed): a parent-marker line for an absent identifier that
passes the length bounds inserts a record with that line's derived
length and no children; and once a record for an identifier is in the
accumulator, processing any further input lines (in particular duplicate
parent-marker lines for the same identifier) leaves its identifier and
length unchanged and only ever appends to its accumulated children --
first parent-marker line wins, later ones are ignored. -/
theorem C5_first_parent_marker_wins :
    (∀ (r : InterproGffReader) (acc : RecordsMap) (id : String)
      (domain : DomainRecord),
      domain.is_gene = true → lookupRec acc id = none →
      exceedsMax (GeneRecord.new id domain.start domain.«end»).length
        r.max_length = false →
      belowMin (GeneRecord.new id domain.start domain.«end»).length
        r.min_length = false →
      lookupRec (r.applyRecord acc id domain) id =
        some (GeneRecord.new id domain.start domain.«end»)) ∧
    (∀ (r : InterproGffReader) (lines : List String) (acc m : RecordsMap)
      (id : String) (g : GeneRecord),
      r.runLines lines acc = .ok m → lookupRec acc id = some g →
      ∃ g2, lookupRec m id = some g2 ∧ g2.id = g.id ∧
        g2.length = g.length ∧ ∃ ds, g2.domains = g.domains ++ ds) := by
  constructor
  · intro r acc id domain hg habsent hmax hmin
    unfold InterproGffReader.applyRecord
    rw [hg]
    dsimp only
    rw [hmax, hmin]
    simp only [Bool.false_eq_true, if_false]
    exact lookupRec_orInsert_absent _ habsent
  · intro r lines acc m id g h hl
    obtain ⟨g2, hg2, hext⟩ := runLines_extendsRec r lines acc m h hl
    exact ⟨g2, hg2, hext.1, hext.2.1, hext.2.2⟩

/-- Witness for C5: starting from an accumulator already holding gene1
with length 11 and no children, processing a duplicate parent-marker
line for gene1 with a different span leaves length 11 and the child list
untouched. -/
theorem C5_first_parent_marker_wins_witness :
    ∃ g2, lookupRec [("gene1", GeneRecord.mk "gene1" 11 [])] "gene1" =
        some g2 ∧ g2.id = "gene1" ∧ g2.length = 11 ∧
      ∃ ds, g2.domains = ([] : List DomainRecord) ++ ds :=
  C5_first_parent_marker_wins.2 (InterproGffReader.new [dupParentLine])
    [dupParentLine] [("gene1", GeneRecord.mk "gene1" 11 [])]
    [("gene1", GeneRecord.mk "gene1" 11 [])] "gene1"
    (GeneRecord.mk "gene1" 11 []) (by rfl) (by rfl)

/-- C6 (confirmed): length bounds are applied only when a parent record
is created -- a parent-marker line whose derived length is strictly below
a configured min-length, or strictly above a configured max-length,
changes nothing (no record is produced); the bounds are inclusive (a
parent of length 11 survives both min-length 11 and max-length 11,
while min-length 20 excludes the 10-to-20 parent of length 11); and a
parent that passed the bounds stays in the output after the source
filter prunes all of its children. -/
theorem C6_length_bounds_at_creation :
    (∀ (r : InterproGffReader) (acc : RecordsMap) (id : String)
      (domain : DomainRecord) (mn : Nat),
      domain.is_gene = true → r.min_length = some mn →
      (GeneRecord.new id domain.start domain.«end»).length < mn →
      r.applyRecord acc id domain = acc) ∧
    (∀ (r : InterproGffReader) (acc : RecordsMap) (id : String)
      (domain : DomainRecord) (mx : Nat),
      domain.is_gene = true → r.max_length = some mx →
      (GeneRecord.new id domain.start domain.«end»).length > mx →
      r.applyRecord acc id domain = acc) ∧
    ({ InterproGffReader.new [parentLine] with min_length := some 20 }.finish
      = .ok []) ∧
    ({ InterproGffReader.new [parentLine] with min_length := some 11 }.finish
      = .ok [GeneRecord.mk "gene1" 11 []]) ∧
    ({ InterproGffReader.new [parentLine] with max_length := some 11 }.finish
      = .ok [GeneRecord.mk "gene1" 11 []]) ∧
    ({ InterproGffReader.new [parentLine, childLine] with
        min_length := some 5,
        source_expr := some ⟨ExprData.HasNodes (Node.Name "Pfam")⟩ }.finish
      = .ok [GeneRecord.mk "gene1" 11 []]) := by
  refine ⟨?_, ?_, rfl, rfl, rfl, rfl⟩
  · intro r acc id domain mn hg hmin hlt
    have hb : belowMin (GeneRecord.new id domain.start domain.«end»).length
        r.min_length = true := by
      rw [hmin]
      simpa [belowMin] using hlt
    unfold InterproGffReader.applyRecord
    rw [hg]
    dsimp only
    rw [hb]
    simp
  · intro r acc id domain mx hg hmax hgt
    have hb : exceedsMax (GeneRecord.new id domain.start domain.«end»).length
        r.max_length = true := by
      rw [hmax]
      simpa [exceedsMax] using hgt
    unfold InterproGffReader.applyRecord
    rw [hg]
    dsimp only
    rw [hb]
    simp

/-- Witness for C6: with min-length 20 configured, the parent-marker
record for gene1 spanning 10 to 20 (derived length 11) leaves the empty
accumulator empty. -/
theorem C6_length_bounds_at_creation_witness :
    ({ InterproGffReader.new [] with min_length := some 20 } :
      InterproGffReader).applyRecord [] "gene1"
      (DomainRecord.mk "." 10 20 "No Name" "No Description") = [] :=
  C6_length_bounds_at_creation.1 _ [] "gene1"
    (DomainRecord.mk "." 10 20 "No Name" "No Description") 20 rfl rfl
    (by decide)

/-- C7 (confirmed): a child line whose identifier has no parent record in
the accumulator leaves the accumulator unchanged (silently dropped, no
error); a freshly created parent record has no children, so a
parent-marker line arriving after an orphan child starts with zero
children -- shown concretely by the child-before-parent input producing
the childless gene1 record. -/
theorem C7_orphan_child_dropped :
    (∀ (r : InterproGffReader) (acc : RecordsMap) (id : String)
      (domain : DomainRecord),
      domain.is_gene = false → lookupRec acc id = none →
      r.applyRecord acc id domain = acc) ∧
    (∀ (id : String) (start stop : Nat),
      (GeneRecord.new id start stop).domains = []) ∧
    (InterproGffReader.new [childLine, parentLine]).finish =
      .ok [GeneRecord.mk "gene1" 11 []] := by
  refine ⟨?_, fun id start stop => rfl, rfl⟩
  intro r acc id domain hg habsent
  unfold InterproGffReader.applyRecord
  rw [hg]
  simp only [Bool.false_eq_true, if_false]
  exact pushDomainAt_absent domain habsent

/-- Witness for C7: appending the PfamSrc child for gene1 to an empty
accumulator changes nothing. -/
theorem C7_orphan_child_dropped_witness :
    (InterproGffReader.new [childLine, parentLine]).applyRecord [] "gene1"
      (DomainRecord.mk "PfamSrc" 12 15 "Pfam" "Y") = [] :=
  C7_orphan_child_dropped.1 _ [] "gene1"
    (DomainRecord.mk "PfamSrc" 12 15 "Pfam" "Y") rfl rfl

/-- C1 (corrected): when the line loop succeeds, finish always returns Ok
of the post-filtered records -- the domain-expression keep/drop decision
never surfaces an error -- and a record on which the configured domain
expression errors is simply dropped (its keep decision is false).  The
claimed behaviour (the evaluation error aborts the whole read) does not
hold; see the counterexample. -/
theorem C1_domain_filter_error_drops_record :
    (∀ (r : InterproGffReader) (m : RecordsMap),
      r.runLines r.input [] = .ok m →
      r.finish = .ok (((m.map Prod.snd).filter
        (keepByDomainExpr r.domain_expr)).map
        (fun d => d.filter_by_source_expr r.source_expr))) ∧
    (∀ (e : Expr) (g : GeneRecord) (err : RError),
      e.matches_domains g = .error err →
      keepByDomainExpr (some e) g = false) := by
  constructor
  · intro r m h
    unfold InterproGffReader.finish
    rw [h]
  · intro e g err h
    unfold keepByDomainExpr
    dsimp only
    rw [h]

/-- Witness for C1: the domain filter Pfam$x errors on the accumulated
gene1 record, and its keep decision is false (dropped, no error). -/
theorem C1_domain_filter_error_drops_record_witness :
    keepByDomainExpr (some ⟨ExprData.HasNodes (Node.Name "Pfam$x")⟩)
      (GeneRecord.mk "gene1" 11 [DomainRecord.mk "PfamSrc" 12 15 "Pfam" "Y"])
      = false :=
  C1_domain_filter_error_drops_record.2
    ⟨ExprData.HasNodes (Node.Name "Pfam$x")⟩
    (GeneRecord.mk "gene1" 11 [DomainRecord.mk "PfamSrc" 12 15 "Pfam" "Y"])
    .parseInt rfl

/-- Counterexample to C1 as stated: the expression Pfam$x parses, its
evaluation on the accumulated record errors (malformed count syntax),
the line loop accumulates the gene1 record, yet finish returns Ok [] --
the record is silently dropped instead of the error being returned for
the whole read. -/
theorem C1_counterexample :
    Expr.from_string "Pfam$x" =
      .ok ⟨ExprData.HasNodes (Node.Name "Pfam$x")⟩ ∧
    (Expr.mk (ExprData.HasNodes (Node.Name "Pfam$x"))).matches_domains
      (GeneRecord.mk "gene1" 11
        [DomainRecord.mk "PfamSrc" 12 15 "Pfam" "Y"]) = .error .parseInt ∧
    (InterproGffReader.new [parentLine, childLine]).runLines
      [parentLine, childLine] [] =
      .ok [("gene1", GeneRecord.mk "gene1" 11
        [DomainRecord.mk "PfamSrc" 12 15 "Pfam" "Y"])] ∧
    ({ InterproGffReader.new [parentLine, childLine] with
        domain_expr := some ⟨ExprData.HasNodes (Node.Name "Pfam$x")⟩ }.finish
      = .ok []) :=
  ⟨rfl, rfl, rfl, rfl⟩

/-- Witness for C4: with budget 0 the parser rejects even the single-name
token stream with the depth error. -/
theorem C4_recursion_budget_witness :
    Node.munch_tokens [Token.Name "a"] 0 = .error (.parse .ExpressionTooDeep) :=
  C4_recursion_budget.2.1 [Token.Name "a"]
